import Mathlib

/-!
Shallow embedding of the object-pool library (classes Pool in src/index.ts
and Nage in the unnamed source file; the two share verbatim constructor
validation, generate, reserve and release, with Nage adding initialSize,
constructor prepopulation and reset). We model the superset (Nage); the
Pool class of src/index.ts corresponds to the special case initialSize = 0
with reset unused.

Modelling decisions:
  - An entry is identified by its reference identity, modelled as a Nat.
  - The caller-supplied factory (options.create) is an effectful function:
    its n-th invocation returns some entry, or none when it throws.  The
    pool state carries the number of factory calls made so far.
  - The per-pool WeakMap (this.entries) is an association list keyed by
    entry identity; set prepends, get scans (latest set wins).
  - The free list (this.stack) is a list whose HEAD is the top of the
    JavaScript array (the push/pop end), so push is cons and pop is head.
  - The hooks onRelease/onReserve are side-effecting only; the pool records
    whether each is stored and keeps a log of hook invocations in order.
  - Thrown errors are modelled with Except / a Bool flag.  release throws
    before performing any mutation, so its error case carries no state;
    reset mutates before it can throw, so it returns the partial state
    together with a thrown flag.
  - The pool identity string (this.name, built from the timeBasis counter
    and a random component) is passed to the constructor as a parameter.
-/

/-- Entry values are reference identities. -/
abbrev Entry := Nat

/-- Hook invocations, in order: model of the side effects of the stored
onReserve/onRelease callbacks. -/
inductive Ev where
  | reserveHook (e : Entry)
  | releaseHook (e : Entry)
deriving DecidableEq, Repr

/-- Lookup in the WeakMap model (latest set wins). -/
def wmGet : List (Entry × String) → Entry → Option String
  | [], _ => none
  | (k, v) :: rest, e => if k = e then some v else wmGet rest e

/-- Insertion in the WeakMap model: this.entries.set(entry, name). -/
def wmSet (m : List (Entry × String)) (e : Entry) (v : String) :
    List (Entry × String) :=
  (e, v) :: m

/-- Pool state: fields entries, name, create, stack of the source classes,
plus initialSize (Nage only), the call counter of the effectful factory,
whether each hook was stored, and the hook-invocation log. -/
structure Pool where
  create : Nat → Option Entry
  calls : Nat
  entries : List (Entry × String)
  name : String
  initialSize : Nat
  hasOnRelease : Bool
  hasOnReserve : Bool
  stack : List Entry
  log : List Ev

/-- Getter size, returning stack.length. -/
def Pool.size (p : Pool) : Nat := p.stack.length

/-- Method generate: entry = this.create(); this.entries.set(entry,
this.name); return entry.  When the factory throws, the exception
propagates before the set. -/
def generate (p : Pool) : Option Entry × Pool :=
  match p.create p.calls with
  | none => (none, { p with calls := p.calls + 1 })
  | some entry =>
      (some entry,
        { p with
            calls := p.calls + 1
            entries := wmSet p.entries entry p.name })

/-- Method reserve: pop the stack if nonempty, else generate; then invoke
the onReserve hook (if stored) with the reserved entry and return it.
A factory throw propagates before the hook runs. -/
def reserve (p : Pool) : Option Entry × Pool :=
  match p.stack with
  | reserved :: rest =>
      let p1 := { p with stack := rest }
      (some reserved,
        if p1.hasOnReserve then
          { p1 with log := p1.log ++ [Ev.reserveHook reserved] }
        else p1)
  | [] =>
      match generate p with
      | (none, p1) => (none, p1)
      | (some reserved, p1) =>
          (some reserved,
            if p1.hasOnReserve then
              { p1 with log := p1.log ++ [Ev.reserveHook reserved] }
            else p1)

/-- Method release: throw unless this.entries.get(entry) === this.name
(the throw precedes every mutation); then, only when stack.indexOf(entry)
=== -1, invoke the onRelease hook (if stored) and push the entry. -/
def release (p : Pool) (entry : Entry) : Except Unit Pool :=
  if wmGet p.entries entry ≠ some p.name then
    .error ()
  else if entry ∈ p.stack then
    .ok p
  else
    let p1 :=
      if p.hasOnRelease then
        { p with log := p.log ++ [Ev.releaseHook entry] }
      else p
    .ok { p1 with stack := entry :: p1.stack }

/-- Prepopulation loop shared verbatim by the Nage constructor and reset:
for (index = 0; index < k; ++index) this.stack.push(this.generate()).
Returns the state after the loop and whether the factory threw (true =
the exception propagated, leaving the pushes made so far in place). -/
def prepop (k : Nat) (p : Pool) : Pool × Bool :=
  match k with
  | 0 => (p, false)
  | k + 1 =>
      match generate p with
      | (none, p1) => (p1, true)
      | (some entry, p1) => prepop k { p1 with stack := entry :: p1.stack }

/-- Method reset: this.stack.length = 0, then if (this.initialSize) run
the prepopulation loop.  Returns the resulting state and whether the
factory threw during repopulation. -/
def reset (p : Pool) : Pool × Bool :=
  if p.initialSize ≠ 0 then
    prepop p.initialSize { p with stack := ([] : List Entry) }
  else
    ({ p with stack := ([] : List Entry) }, false)

/-- Value of the options.create property in the dynamically-typed options
object: absent (undefined, so the destructuring default applies), a
callable (carrying its behaviour as an effectful supply), or any
non-callable value (typeof create !== 'function'). -/
inductive CreateOpt where
  | missing
  | fn (f : Nat → Option Entry)
  | nonFn

/-- Value of the options.onRelease / options.onReserve property: absent,
callable (functions are always truthy in JavaScript), a truthy
non-callable (e.g. 42, 'x', an object), or a falsy non-callable
(0, false, the empty string, null, NaN). -/
inductive HookOpt where
  | missing
  | callable
  | truthyNonCallable
  | falsyNonCallable
deriving DecidableEq, Repr

/-- JavaScript truthiness of a hook option value. -/
def HookOpt.isTruthy : HookOpt → Bool
  | .callable => true
  | .truthyNonCallable => true
  | _ => false

/-- Whether typeof value === 'function' for a hook option value. -/
def HookOpt.isCallable : HookOpt → Bool
  | .callable => true
  | _ => false

/-- The options object of the constructor, with the source's destructuring
defaults (create = getEmptyObject, initialSize = 0). -/
structure Options where
  create : CreateOpt := .missing
  initialSize : Nat := 0
  onRelease : HookOpt := .missing
  onReserve : HookOpt := .missing

/-- Errors thrown synchronously by the constructor: a configuration error
with its message, or a propagated factory failure during prepopulation. -/
inductive CtorErr where
  | config (msg : String)
  | factory
deriving DecidableEq, Repr

/-- Default factory getEmptyObject: returns a fresh empty object on every
call, modelled as a supply of distinct reference identities. -/
def getEmptyObject : Nat → Option Entry := fun n => some n

/-- Whether the (defaulted) create option fails typeof create !==
'function'. -/
def CreateOpt.nonCallable : CreateOpt → Bool
  | .nonFn => true
  | _ => false

/-- The factory the pool stores: the provided callable, else the default. -/
def CreateOpt.resolve : CreateOpt → (Nat → Option Entry)
  | .fn f => f
  | _ => getEmptyObject

/-- Whether a hook option value gets stored on the pool: the outer
truthiness test, then typeof === 'function'. -/
def hookStored (h : HookOpt) : Bool := h.isTruthy && h.isCallable

/-- Whether a hook option value makes the constructor throw: truthy,
not callable, and DEV mode. -/
def hookThrows (dev : Bool) (h : HookOpt) : Bool :=
  h.isTruthy && !h.isCallable && dev

/-- The Nage constructor: fresh WeakMap, identity, empty stack; throw if
create is not callable (every mode); store each hook when callable,
throwing in DEV mode only when the provided value is truthy and not
callable; then, if (initialSize), run the prepopulation loop (a factory
throw propagates, so no object is produced).  The dev parameter is the
build-mode constant DEV; the name parameter stands for the generated
identity string.  basePool is the state just before prepopulation. -/
def basePool (name : String) (opts : Options) : Pool :=
  { create := opts.create.resolve
    calls := 0
    entries := []
    name := name
    initialSize := opts.initialSize
    hasOnRelease := hookStored opts.onRelease
    hasOnReserve := hookStored opts.onReserve
    stack := []
    log := [] }

def construct (dev : Bool) (name : String) (opts : Options) :
    Except CtorErr Pool :=
  if opts.create.nonCallable then
    .error (.config "create must be a function")
  else if hookThrows dev opts.onRelease then
    .error (.config "onRelease must be a function")
  else if hookThrows dev opts.onReserve then
    .error (.config "onReserve must be a function")
  else if opts.initialSize ≠ 0 then
    match prepop opts.initialSize (basePool name opts) with
    | (p, false) => .ok p
    | (_, true) => .error .factory
  else
    .ok (basePool name opts)

/-- Registration of an entry under this pool's identity: the ownership
test this.entries.get(entry) === this.name. -/
def Registered (p : Pool) (e : Entry) : Prop :=
  wmGet p.entries e = some p.name

instance (p : Pool) (e : Entry) : Decidable (Registered p e) := by
  unfold Registered; infer_instance

/-- The registration invariant: every entry on the free list is registered
in the WeakMap under this pool's identity. -/
def PoolInv (p : Pool) : Prop :=
  ∀ e ∈ p.stack, Registered p e

instance (p : Pool) : Decidable (PoolInv p) := by
  unfold PoolInv; infer_instance

/-- The entries generated by k successive factory calls starting at call
index start; none when some call among them throws. -/
def genSeq (create : Nat → Option Entry) (start : Nat) : Nat → Option (List Entry)
  | 0 => some []
  | k + 1 =>
      match create start with
      | none => none
      | some e =>
          match genSeq create (start + 1) k with
          | none => none
          | some rest => some (e :: rest)

/-- Positional Pool builder, convenient for concrete states. -/
def mkPool (create : Nat → Option Entry) (calls : Nat)
    (entries : List (Entry × String)) (name : String) (initialSize : Nat)
    (hasOnRelease hasOnReserve : Bool) (stack : List Entry) (log : List Ev) :
    Pool :=
  ⟨create, calls, entries, name, initialSize, hasOnRelease, hasOnReserve,
    stack, log⟩

/-! Concrete states used by witnesses and counterexamples. -/

/-- Empty pool, used as a default when destructuring Except values. -/
def emptyPool : Pool := mkPool getEmptyObject 0 [] "" 0 false false [] []

/-- Concrete pool used by the C1 witness: factory supplies entry 7 first. -/
def w1pool : Pool := mkPool (fun n => some (n + 7)) 0 [] "w1" 0 false false [] []

/-- Options for the C2 witness: supplied factory, one prepopulated entry. -/
def w2opts : Options :=
  { create := CreateOpt.fn (fun n => some n), initialSize := 1,
    onRelease := HookOpt.missing, onReserve := HookOpt.missing }

/-- Pool for the C2 witness: constructed in production mode. -/
def w2pool : Pool := ((construct false "w2" w2opts).toOption).getD emptyPool

/-- Pool for the C3 witness: entry 5 is registered but not yet free, and the
onRelease hook is stored, so the hook-skip on the duplicate call is visible
in the log. -/
def w3pool : Pool :=
  mkPool (fun n => some n) 0 [(5, "w3")] "w3" 0 true false [] []

/-- First release of entry 5 in the C3 witness. -/
def w3p1 : Pool := (release w3pool 5).toOption.getD emptyPool

/-- Second (duplicate) release of entry 5 in the C3 witness. -/
def w3p2 : Pool := (release w3p1 5).toOption.getD emptyPool

/-- Options for the C4 witness: supplied factory, no prepopulation. -/
def w4opts : Options :=
  { create := CreateOpt.fn (fun n => some (10 + n)), initialSize := 0,
    onRelease := HookOpt.missing, onReserve := HookOpt.missing }

/-- Constructed pool for the C4 witness. -/
def w4p0 : Pool := (construct false "w4" w4opts).toOption.getD emptyPool

/-- After reserving entry 10 in the C4 witness. -/
def w4p1 : Pool := (reserve w4p0).2

/-- After reserving entry 11 in the C4 witness. -/
def w4p2 : Pool := (reserve w4p1).2

/-- After releasing entry 10 in the C4 witness. -/
def w4p3 : Pool := (release w4p2 10).toOption.getD emptyPool

/-- After releasing entry 11 in the C4 witness. -/
def w4p4 : Pool := (release w4p3 11).toOption.getD emptyPool

/-- C5 counterexample: on a freshly constructed empty pool, reserve
manufactures an entry (size stays 0) and releasing it pushes it (size 1),
so the reserve/release round trip does not leave size unchanged for every
pool state. -/
def w5pool : Pool := mkPool (fun n => some (20 + n)) 0 [] "w5" 0 false false [] []

/-- Pool after the round trip of the C5 counterexample. -/
def w5p2 : Pool := (release (reserve w5pool).2 20).toOption.getD emptyPool

/-- Pool for the C5 witness: one owned entry on the free list. -/
def w5bpool : Pool :=
  mkPool (fun n => some (40 + n)) 0 [(30, "w5b")] "w5b" 0 false false [30] []

/-- Pool after the round trip of the C5 witness. -/
def w5bp2 : Pool := (release (reserve w5bpool).2 30).toOption.getD emptyPool

/-- Pool for the C6 witness: two configured entries, a stale free entry 9,
factory counter already at 3. -/
def w6pool : Pool :=
  mkPool (fun n => some (50 + n)) 3 [(9, "w6")] "w6" 2 false false [9] []

/-- Pool for the C10 witness: three configured entries, the factory
succeeds once (entry 70) and throws on its second call. -/
def w10pool : Pool :=
  mkPool (fun n => if n = 0 then some 70 else none) 0 [(8, "w10")] "w10" 3
    false false [8] []

/-- Options of the C7 scenario: initialSize 2 with a factory supplying the
distinct entries 100, 101, 102, ... -/
def c7opts : Options :=
  { create := CreateOpt.fn (fun n => some (100 + n)), initialSize := 2,
    onRelease := HookOpt.missing, onReserve := HookOpt.missing }

/-- The C7 pool P right after construction. -/
def c7p0 : Pool := (construct false "P" c7opts).toOption.getD emptyPool

/-- P after the first reserve (returning a = 101). -/
def c7p1 : Pool := (reserve c7p0).2

/-- P after the second reserve (returning b = 100). -/
def c7p2 : Pool := (reserve c7p1).2

/-- P after the third reserve (manufacturing c = 102). -/
def c7p3 : Pool := (reserve c7p2).2

/-- P after releasing a = 101. -/
def c7p4 : Pool := (release c7p3 101).toOption.getD emptyPool

/-- Options with an always-failing factory and nonzero initialSize, used to
show the create check fires before anything else. -/
def c8optsCreate : Options :=
  { create := CreateOpt.nonFn, initialSize := 0,
    onRelease := HookOpt.missing, onReserve := HookOpt.missing }

/-- Options whose onRelease is a truthy non-callable value. -/
def c8optsRel : Options :=
  { create := CreateOpt.missing, initialSize := 0,
    onRelease := HookOpt.truthyNonCallable, onReserve := HookOpt.missing }

/-- Options whose onReserve is a truthy non-callable value. -/
def c8optsRes : Options :=
  { create := CreateOpt.missing, initialSize := 0,
    onRelease := HookOpt.missing, onReserve := HookOpt.truthyNonCallable }

/-- Options whose onRelease is a falsy non-callable value (e.g. 0). -/
def c8optsFalsy : Options :=
  { create := CreateOpt.missing, initialSize := 0,
    onRelease := HookOpt.falsyNonCallable, onReserve := HookOpt.missing }

/-- Pool with no stored onRelease hook and one reserved entry, for the C8
witness. -/
def c8pool : Pool :=
  mkPool (fun n => some n) 0 [(1, "c8p")] "c8p" 0 false false [] []

/-! Helper lemmas about the operations. -/

theorem wmGet_wmSet (m : List (Entry × String)) (k e : Entry) (v : String) :
    wmGet (wmSet m k v) e = if k = e then some v else wmGet m e := rfl

theorem generate_eq_none (p : Pool) (h : p.create p.calls = none) :
    generate p = (none, { p with calls := p.calls + 1 }) := by
  simp [generate, h]

theorem generate_eq_some (p : Pool) (e : Entry)
    (h : p.create p.calls = some e) :
    generate p =
      (some e,
        { p with
            calls := p.calls + 1
            entries := wmSet p.entries e p.name }) := by
  simp [generate, h]

theorem generate_some_inv (p : Pool) (e : Entry) (q : Pool)
    (h : generate p = (some e, q)) :
    p.create p.calls = some e ∧
      q = { p with
              calls := p.calls + 1
              entries := wmSet p.entries e p.name } := by
  cases hc : p.create p.calls with
  | none => rw [generate_eq_none p hc] at h; simp at h
  | some a =>
      rw [generate_eq_some p a hc] at h
      injection h with h1 h2
      injection h1 with h1
      subst h1
      exact ⟨rfl, h2.symm⟩

theorem generate_registered (p : Pool) (e : Entry) (q : Pool)
    (h : generate p = (some e, q)) : Registered q e := by
  obtain ⟨_, rfl⟩ := generate_some_inv p e q h
  simp [Registered, wmGet_wmSet]

theorem generate_registered_mono (p : Pool) (x : Entry)
    (h : Registered p x) : Registered (generate p).2 x := by
  cases hc : p.create p.calls with
  | none => rw [generate_eq_none p hc]; exact h
  | some a =>
      rw [generate_eq_some p a hc]
      simp only [Registered, wmGet_wmSet] at *
      split <;> simp_all

theorem reserve_pop (p : Pool) (e : Entry) (rest : List Entry)
    (h : p.stack = e :: rest) :
    (reserve p).1 = some e ∧ (reserve p).2.stack = rest ∧
      (reserve p).2.entries = p.entries ∧ (reserve p).2.name = p.name ∧
      (reserve p).2.calls = p.calls ∧ (reserve p).2.create = p.create ∧
      (reserve p).2.hasOnRelease = p.hasOnRelease ∧
      (reserve p).2.hasOnReserve = p.hasOnReserve ∧
      (reserve p).2.initialSize = p.initialSize := by
  simp only [reserve, h]
  split <;> simp

theorem reserve_nil_inv (p : Pool) (e : Entry) (q : Pool)
    (hs : p.stack = []) (h : reserve p = (some e, q)) :
    p.create p.calls = some e ∧ q.stack = [] ∧ q.calls = p.calls + 1 ∧
      q.entries = wmSet p.entries e p.name ∧ q.name = p.name ∧
      q.create = p.create ∧ q.hasOnRelease = p.hasOnRelease ∧
      q.hasOnReserve = p.hasOnReserve ∧ q.initialSize = p.initialSize := by
  cases hc : p.create p.calls with
  | none =>
      simp only [reserve, hs, generate_eq_none p hc] at h
      simp at h
  | some a =>
      simp only [reserve, hs, generate_eq_some p a hc] at h
      split at h <;>
        (obtain ⟨h1, h2⟩ := Prod.mk.injEq .. ▸ h
         cases Option.some.injEq .. ▸ h1
         subst h2
         simp_all [hs])

theorem release_err (p : Pool) (e : Entry) (h : ¬ Registered p e) :
    release p e = .error () := by
  simp [release, Registered] at *
  intro hc
  exact absurd hc h

theorem release_dup (p : Pool) (e : Entry) (hr : Registered p e)
    (hs : e ∈ p.stack) : release p e = .ok p := by
  simp [release, Registered] at *
  simp [hr, hs]

theorem release_ok_inv (p : Pool) (e : Entry) (q : Pool)
    (h : release p e = .ok q) :
    Registered p e ∧
      ((e ∈ p.stack ∧ q = p) ∨
        (e ∉ p.stack ∧ q.stack = e :: p.stack ∧ q.entries = p.entries ∧
          q.name = p.name ∧ q.calls = p.calls ∧ q.create = p.create ∧
          q.hasOnRelease = p.hasOnRelease ∧
          q.hasOnReserve = p.hasOnReserve ∧
          q.initialSize = p.initialSize ∧
          q.log =
            (if p.hasOnRelease then p.log ++ [Ev.releaseHook e]
             else p.log))) := by
  by_cases hr : Registered p e
  · refine ⟨hr, ?_⟩
    by_cases hs : e ∈ p.stack
    · rw [release_dup p e hr hs] at h
      exact Or.inl ⟨hs, (Except.ok.injEq .. ▸ h).symm⟩
    · right
      refine ⟨hs, ?_⟩
      simp only [release, Registered] at hr h
      rw [if_neg (by simp [hr]), if_neg hs] at h
      cases Except.ok.injEq .. ▸ h
      split <;> simp
  · rw [release_err p e hr] at h
    simp at h

theorem release_push (p : Pool) (e : Entry) (hr : Registered p e)
    (hs : e ∉ p.stack) :
    ∃ q, release p e = .ok q ∧ q.stack = e :: p.stack := by
  simp only [release, Registered] at hr ⊢
  rw [if_neg (by simp [hr]), if_neg hs]
  split <;> exact ⟨_, rfl, rfl⟩

theorem registered_wmSet (p : Pool) (e x : Entry) (hx : Registered p x) :
    wmGet (wmSet p.entries e p.name) x = some p.name := by
  rw [wmGet_wmSet]
  split <;> simp_all [Registered]

theorem genSeq_length (create : Nat → Option Entry) :
    ∀ k start l, genSeq create start k = some l → l.length = k := by
  intro k
  induction k with
  | zero =>
      intro start l h
      simp [genSeq] at h
      simp [← h]
  | succ k ih =>
      intro start l h
      simp only [genSeq] at h
      split at h
      · exact absurd h (by simp)
      · split at h
        · exact absurd h (by simp)
        · rename_i rest hrest
          injection h with h
          subst h
          simp [ih _ _ hrest]

theorem prepop_ok_inv :
    ∀ (k : Nat) (p q : Pool), prepop k p = (q, false) →
      ∃ l, genSeq p.create p.calls k = some l ∧
        q.stack = l.reverse ++ p.stack ∧
        q.calls = p.calls + k ∧
        q.name = p.name ∧ q.create = p.create ∧
        q.initialSize = p.initialSize ∧
        q.hasOnRelease = p.hasOnRelease ∧
        q.hasOnReserve = p.hasOnReserve ∧
        q.log = p.log ∧
        (∀ x, Registered p x → Registered q x) ∧
        (∀ x ∈ l, Registered q x) := by
  intro k
  induction k with
  | zero =>
      intro p q h
      simp [prepop] at h
      subst h
      exact ⟨[], rfl, by simp, rfl, rfl, rfl, rfl, rfl, rfl, rfl,
        fun x hx => hx, by simp⟩
  | succ k ih =>
      intro p q h
      simp only [prepop] at h
      cases hc : p.create p.calls with
      | none =>
          simp only [generate_eq_none p hc] at h
          exact absurd (congrArg Prod.snd h) (by simp)
      | some e =>
          simp only [generate_eq_some p e hc] at h
          obtain ⟨l, h1, h2, h3, h4, h5, h6, h7, h8, h9, h10, h11⟩ :=
            ih _ q h
          refine ⟨e :: l, ?_, ?_, ?_, h4, h5, h6, h7, h8, h9, ?_, ?_⟩
          · simp only [genSeq, hc]
            simp only at h1
            rw [h1]
          · simp only at h2
            rw [h2]; simp
          · simp only at h3
            rw [h3]; omega
          · intro x hx
            exact h10 x (registered_wmSet p e x hx)
          · intro x hx
            rcases List.mem_cons.mp hx with rfl | hx
            · exact h10 x (by simp [Registered, wmGet_wmSet])
            · exact h11 x hx

theorem prepop_err_forward :
    ∀ (i k : Nat) (p : Pool) (l : List Entry), i < k →
      genSeq p.create p.calls i = some l →
      p.create (p.calls + i) = none →
      ∃ q, prepop k p = (q, true) ∧ q.stack = l.reverse ++ p.stack ∧
        q.calls = p.calls + i + 1 := by
  intro i
  induction i with
  | zero =>
      intro k p l hk h1 h2
      have hl : l = [] := by simpa [genSeq] using h1.symm
      subst hl
      cases k with
      | zero => omega
      | succ k =>
          simp only [prepop]
          rw [generate_eq_none p (by simpa using h2)]
          exact ⟨_, rfl, by simp, by simp⟩
  | succ i ih =>
      intro k p l hk h1 h2
      simp only [genSeq] at h1
      split at h1
      · exact absurd h1 (by simp)
      · rename_i e he
        split at h1
        · exact absurd h1 (by simp)
        · rename_i rest hrest
          injection h1 with h1
          subst h1
          cases k with
          | zero => omega
          | succ k =>
              simp only [prepop]
              simp only [generate_eq_some p e he]
              obtain ⟨q, hq, hstack, hcalls⟩ :=
                ih k
                  { p with
                      calls := p.calls + 1
                      entries := wmSet p.entries e p.name
                      stack := e :: p.stack }
                  rest (by omega) hrest
                  (by
                    show p.create (p.calls + 1 + i) = none
                    rw [show p.calls + 1 + i = p.calls + (i + 1) by omega]
                    exact h2)
              refine ⟨q, hq, ?_, ?_⟩
              · rw [hstack]; simp
              · simp only at hcalls
                omega

theorem prepop_preserves_inv :
    ∀ (k : Nat) (p : Pool), PoolInv p → PoolInv (prepop k p).1 := by
  intro k
  induction k with
  | zero => intro p hp; exact hp
  | succ k ih =>
      intro p hp
      simp only [prepop]
      cases hc : p.create p.calls with
      | none =>
          simp only [generate_eq_none p hc]
          exact fun e he => hp e he
      | some e =>
          simp only [generate_eq_some p e hc]
          apply ih
          intro x hx
          rcases List.mem_cons.mp hx with rfl | hx
          · simp [Registered, wmGet_wmSet]
          · exact registered_wmSet p e x (hp x hx)

theorem construct_ok_inv (dev : Bool) (name : String) (opts : Options)
    (p : Pool) (h : construct dev name opts = .ok p) :
    opts.create.nonCallable = false ∧
      hookThrows dev opts.onRelease = false ∧
      hookThrows dev opts.onReserve = false ∧
      p.name = name ∧ p.create = opts.create.resolve ∧
      p.initialSize = opts.initialSize ∧
      p.hasOnRelease = hookStored opts.onRelease ∧
      p.hasOnReserve = hookStored opts.onReserve ∧
      p.log = [] ∧
      ∃ l, genSeq opts.create.resolve 0 opts.initialSize = some l ∧
        p.stack = l.reverse ∧ p.calls = opts.initialSize ∧
        (∀ x ∈ l, Registered p x) := by
  unfold construct at h
  split at h
  · exact absurd h (by simp)
  · split at h
    · exact absurd h (by simp)
    · split at h
      · exact absurd h (by simp)
      · rename_i hcr hrel hres
        split at h
        · rename_i hsz
          split at h
          · rename_i q hq
            injection h with h
            subst h
            obtain ⟨l, g1, g2, g3, g4, g5, g6, g7, g8, g9, g10, g11⟩ :=
              prepop_ok_inv _ _ _ hq
            refine ⟨by simpa using hcr, by simpa using hrel,
              by simpa using hres, by simpa [basePool] using g4,
              by simpa [basePool] using g5, by simpa [basePool] using g6,
              by simpa [basePool] using g7, by simpa [basePool] using g8,
              by simpa [basePool] using g9, l,
              by simpa [basePool] using g1,
              by simpa [basePool] using g2,
              by simpa [basePool] using g3, g11⟩
          · exact absurd h (by simp)
        · rename_i hsz
          injection h with h
          subst h
          simp only [not_not] at hsz
          exact ⟨by simpa using hcr, by simpa using hrel,
            by simpa using hres, rfl, rfl, rfl, rfl, rfl, rfl,
            [], by simp [hsz, genSeq], by simp [basePool],
            by simp [basePool, hsz], by simp⟩

/-! Claim theorems. -/

/-- C1: release succeeds exactly on values whose ownership lookup yields this
pool's own identity.  Every entry produced by generate is registered under the
pool's identity, so the pool accepts it back; every value whose registry lookup
does not yield the pool's own identity (never registered, or registered by a
different pool) makes release throw the OwnershipError, and release throws in
no other case. -/
theorem c1_release_ownership :
    (∀ p e q, generate p = (some e, q) → Registered q e) ∧
    (∀ p e, (∃ q, release p e = .ok q) ↔ Registered p e) ∧
    (∀ p e, release p e = .error () ↔ ¬ Registered p e) := by
  refine ⟨generate_registered, fun p e => ⟨?_, ?_⟩, fun p e => ⟨?_, ?_⟩⟩
  · rintro ⟨q, hq⟩
    exact (release_ok_inv p e q hq).1
  · intro hr
    by_cases hs : e ∈ p.stack
    · exact ⟨p, release_dup p e hr hs⟩
    · obtain ⟨q, hq, _⟩ := release_push p e hr hs
      exact ⟨q, hq⟩
  · intro herr hr
    by_cases hs : e ∈ p.stack
    · rw [release_dup p e hr hs] at herr
      exact absurd herr (by simp)
    · obtain ⟨q, hq, _⟩ := release_push p e hr hs
      rw [hq] at herr
      exact absurd herr (by simp)
  · exact release_err p e

/-- Witness for C1 at concrete inputs: generate on w1pool yields entry 7,
which is then registered and releasable; entry 3 was never registered, so
releasing it throws. -/
theorem c1_release_ownership_witness :
    Registered (generate w1pool).2 7 ∧
      (∃ q, release (generate w1pool).2 7 = .ok q) ∧
      release w1pool 3 = .error () :=
  ⟨c1_release_ownership.1 w1pool 7 (generate w1pool).2 rfl,
    (c1_release_ownership.2.1 (generate w1pool).2 7).mpr (by decide),
    (c1_release_ownership.2.2 w1pool 3).mpr (by decide)⟩

/-- C2: the registration invariant — every entry on the free list is
registered in the WeakMap under this pool's identity — holds of every
successfully constructed pool (prepopulation included) and is preserved by
generate, reserve, release, and reset (the latter even when it propagates a
factory failure). -/
theorem c2_registration_invariant :
    (∀ dev name opts p, construct dev name opts = .ok p → PoolInv p) ∧
    (∀ p, PoolInv p → PoolInv (generate p).2) ∧
    (∀ p, PoolInv p → PoolInv (reserve p).2) ∧
    (∀ p e q, PoolInv p → release p e = .ok q → PoolInv q) ∧
    (∀ p, PoolInv p → PoolInv (reset p).1) := by
  refine ⟨?_, ?_, ?_, ?_, ?_⟩
  · intro dev name opts p h
    obtain ⟨-, -, -, -, -, -, -, -, -, l, -, hstack, -, hreg⟩ :=
      construct_ok_inv dev name opts p h
    intro e he
    rw [hstack] at he
    exact hreg e (List.mem_reverse.mp he)
  · intro p hp
    cases hc : p.create p.calls with
    | none =>
        simp only [generate_eq_none p hc]
        exact fun e he => hp e he
    | some e =>
        simp only [generate_eq_some p e hc]
        intro x hx
        exact registered_wmSet p e x (hp x hx)
  · intro p hp
    cases hs : p.stack with
    | cons e rest =>
        simp only [reserve, hs]
        split
        · intro x hx
          exact hp x (by rw [hs]; exact List.mem_cons_of_mem e hx)
        · intro x hx
          exact hp x (by rw [hs]; exact List.mem_cons_of_mem e hx)
    | nil =>
        simp only [reserve, hs]
        cases hc : p.create p.calls with
        | none =>
            simp only [generate_eq_none p hc]
            exact fun e he => hp e he
        | some e =>
            simp only [generate_eq_some p e hc]
            split
            · intro x hx
              exact registered_wmSet p e x (hp x hx)
            · intro x hx
              exact registered_wmSet p e x (hp x hx)
  · intro p e q hp h
    obtain ⟨hr, hcase⟩ := release_ok_inv p e q h
    rcases hcase with ⟨hs, rfl⟩ | ⟨hs, hst, hen, hnm, -, -, -, -, -, -⟩
    · exact hp
    · intro x hx
      rw [hst] at hx
      rcases List.mem_cons.mp hx with rfl | hx
      · simpa [Registered, hen, hnm] using hr
      · simpa [Registered, hen, hnm] using hp x hx
  · intro p hp
    unfold reset
    split
    · exact prepop_preserves_inv _ _ (by intro x hx; simp at hx)
    · intro x hx
      simp at hx

/-- Witness for C2 at concrete inputs: the invariant holds for the
constructed pool and after each operation on it. -/
theorem c2_registration_invariant_witness :
    PoolInv w2pool ∧ PoolInv (generate w2pool).2 ∧
      PoolInv (reserve w2pool).2 ∧
      PoolInv ((release w2pool 0).toOption.getD emptyPool) ∧
      PoolInv (reset w2pool).1 :=
  have h0 : PoolInv w2pool :=
    c2_registration_invariant.1 false "w2" w2opts w2pool rfl
  ⟨h0, c2_registration_invariant.2.1 w2pool h0,
    c2_registration_invariant.2.2.1 w2pool h0,
    c2_registration_invariant.2.2.2.1 w2pool 0
      ((release w2pool 0).toOption.getD emptyPool) h0 rfl,
    c2_registration_invariant.2.2.2.2 w2pool h0⟩

/-- C3: releasing the same entry twice in succession adds it to the free
list at most once: the second (duplicate) release leaves the pool completely
unchanged — the onRelease hook invocation and the push are skipped together,
so the hook log does not grow — the count of the entry on the free list after
both calls is max(previous count, 1) (no duplicate is ever added), and size
grows by at most one across the pair of calls. -/
theorem c3_idempotent_release :
    ∀ p e p1 p2, release p e = .ok p1 → release p1 e = .ok p2 →
      p2 = p1 ∧ p1.stack.length ≤ p.stack.length + 1 ∧
      List.count e p2.stack = max (List.count e p.stack) 1 ∧
      p2.log = p1.log := by
  intro p e p1 p2 h1 h2
  obtain ⟨hr, hcase⟩ := release_ok_inv p e p1 h1
  rcases hcase with ⟨hs, heq⟩ | ⟨hs, hst, hen, hnm, -, -, -, -, -, -⟩
  · have h2a : release p e = .ok p2 := by rw [← heq]; exact h2
    rw [release_dup p e hr hs] at h2a
    injection h2a with h2a
    have hpos : 0 < List.count e p.stack := List.count_pos_iff.mpr hs
    refine ⟨?_, ?_, ?_, ?_⟩
    · rw [heq, ← h2a]
    · rw [heq]
      omega
    · rw [← h2a]
      exact (max_eq_left hpos).symm
    · rw [heq, ← h2a]
  · have hmem : e ∈ p1.stack := by rw [hst]; exact List.mem_cons_self e _
    have hr1 : Registered p1 e := by simpa [Registered, hen, hnm] using hr
    rw [release_dup p1 e hr1 hmem] at h2
    injection h2 with h2
    have hzero : List.count e p.stack = 0 := List.count_eq_zero.mpr hs
    refine ⟨h2.symm, ?_, ?_, by rw [← h2]⟩
    · rw [hst]; simp
    · rw [← h2, hst, List.count_cons_self, hzero]
      simp

/-- Witness for C3 at concrete inputs. -/
theorem c3_idempotent_release_witness :
    w3p2 = w3p1 ∧ w3p1.stack.length ≤ w3pool.stack.length + 1 ∧
      List.count 5 w3p2.stack = max (List.count 5 w3pool.stack) 1 ∧
      w3p2.log = w3p1.log :=
  c3_idempotent_release w3pool 5 w3p1 w3p2 rfl rfl

/-- C4: the free list is LIFO.  From a freshly constructed pool with no
prepopulation, reserving two distinct entries a then b and releasing a then
b, the next two reservations return b then a (by reference identity) without
manufacturing new entries (the factory call counter does not move). -/
theorem c4_lifo :
    ∀ dev name opts p a b p1 p2 p3 p4,
      opts.initialSize = 0 →
      construct dev name opts = .ok p →
      reserve p = (some a, p1) →
      reserve p1 = (some b, p2) →
      a ≠ b →
      release p2 a = .ok p3 →
      release p3 b = .ok p4 →
      (reserve p4).1 = some b ∧
        (reserve (reserve p4).2).1 = some a ∧
        (reserve (reserve p4).2).2.calls = p4.calls := by
  intro dev name opts p a b p1 p2 p3 p4 hsz hc hr1 hr2 hab hl1 hl2
  obtain ⟨-, -, -, -, -, -, -, -, -, l, hgen, hstack, -, -⟩ :=
    construct_ok_inv dev name opts p hc
  rw [hsz] at hgen
  have hl0 : l = [] := by simpa [genSeq] using hgen.symm
  have hpstack : p.stack = [] := by rw [hstack, hl0]; rfl
  obtain ⟨-, h1stack, -, h1entries, h1name, -, -, -, -⟩ :=
    reserve_nil_inv p a p1 hpstack hr1
  obtain ⟨-, h2stack, -, h2entries, h2name, -, -, -, -⟩ :=
    reserve_nil_inv p1 b p2 h1stack hr2
  obtain ⟨-, hcasea⟩ := release_ok_inv p2 a p3 hl1
  rcases hcasea with ⟨hmem, -⟩ | ⟨-, h3stack, h3entries, h3name, -, -, -, -, -, -⟩
  · rw [h2stack] at hmem; simp at hmem
  · obtain ⟨-, hcaseb⟩ := release_ok_inv p3 b p4 hl2
    rcases hcaseb with ⟨hmem, -⟩ | ⟨-, h4stack, -, -, -, -, -, -, -, -⟩
    · rw [h3stack, h2stack] at hmem
      simp at hmem
      exact absurd hmem.symm hab
    · have h4s : p4.stack = [b, a] := by rw [h4stack, h3stack, h2stack]
      obtain ⟨q1f, q1stack, -, -, q1calls, -, -, -, -⟩ :=
        reserve_pop p4 b [a] h4s
      obtain ⟨q2f, q2stack, -, -, q2calls, -, -, -, -⟩ :=
        reserve_pop (reserve p4).2 a [] q1stack
      exact ⟨q1f, q2f, by rw [q2calls, q1calls]⟩

/-- Witness for C4 at concrete inputs: the next two reservations return 11
then 10 without touching the factory. -/
theorem c4_lifo_witness :
    (reserve w4p4).1 = some 11 ∧
      (reserve (reserve w4p4).2).1 = some 10 ∧
      (reserve (reserve w4p4).2).2.calls = w4p4.calls :=
  c4_lifo false "w4" w4opts w4p0 10 11 w4p1 w4p2 w4p3 w4p4 rfl rfl rfl rfl
    (by decide) rfl rfl

/-- Counterexample for C5 as stated: an explicit pool state (empty free
list) where release(reserve()) changes size from 0 to 1. -/
theorem c5_counterexample :
    reserve w5pool = (some 20, (reserve w5pool).2) ∧
      release (reserve w5pool).2 20 = .ok w5p2 ∧
      w5pool.size = 0 ∧ w5p2.size = 1 :=
  ⟨rfl, rfl, rfl, rfl⟩

/-- C5 (amended): for a pool state whose free list is nonempty, duplicate
free, and entirely owned by the pool (all of which hold for reachable
states), reserve() followed by release() of the returned entry leaves size
unchanged; when the free list is empty, the pair instead grows size from 0
to 1, because reserve manufactures a fresh entry rather than popping one. -/
theorem c5_roundtrip :
    ∀ p e p1 p2, PoolInv p → p.stack.Nodup → p.stack ≠ [] →
      reserve p = (some e, p1) → release p1 e = .ok p2 →
      p2.size = p.size := by
  intro p e p1 p2 hinv hnd hne hr hl
  cases hs : p.stack with
  | nil => exact absurd hs hne
  | cons x rest =>
      obtain ⟨q1f, -, -, -, -, -, -, -, -⟩ := reserve_pop p x rest hs
      rw [hr] at q1f
      have q1f2 : some e = some x := q1f
      injection q1f2 with hex
      rw [← hex] at hs
      obtain ⟨-, q1stack, -, -, -, -, -, -, -⟩ := reserve_pop p e rest hs
      rw [hr] at q1stack
      have hst1 : p1.stack = rest := q1stack
      have hnotmem : e ∉ p1.stack := by
        rw [hst1]
        rw [hs] at hnd
        exact (List.nodup_cons.mp hnd).1
      obtain ⟨hrr, hcase⟩ := release_ok_inv p1 e p2 hl
      rcases hcase with ⟨hmem, -⟩ | ⟨-, h2stack, -, -, -, -, -, -, -, -⟩
      · exact absurd hmem hnotmem
      · show p2.stack.length = p.stack.length
        rw [h2stack, hst1, hs]

/-- Witness for the amended C5 at concrete inputs: the free list [30] is
nonempty, duplicate free and owned, and the round trip keeps size at 1. -/
theorem c5_roundtrip_witness :
    PoolInv w5bpool ∧ w5bpool.stack.Nodup ∧ w5bpool.stack ≠ [] ∧
      w5bp2.size = w5bpool.size :=
  ⟨by decide, by decide, by decide,
    c5_roundtrip w5bpool 30 (reserve w5bpool).2 w5bp2 (by decide) (by decide)
      (by decide) rfl rfl⟩

/-- C6: when reset() returns without a factory throw, the previous free
list has been discarded entirely: the new free list is exactly the reversed
list of the initialSize entries freshly manufactured via generate (so the
last-generated entry is on top), size equals the configured initialSize
(0 if unset, in which case the free list is simply emptied), the factory
was called exactly initialSize times, and every entry now reservable is one
of the freshly manufactured ones; the constructor's prepopulation produces
its free list in this same reversed generation order. -/
theorem c6_reset :
    (∀ p q, reset p = (q, false) →
      ∃ l, genSeq p.create p.calls p.initialSize = some l ∧
        q.stack = l.reverse ∧ q.size = p.initialSize ∧
        q.calls = p.calls + p.initialSize ∧
        ∀ e ∈ q.stack, e ∈ l) ∧
    (∀ dev name opts p, construct dev name opts = .ok p →
      ∃ l0, genSeq opts.create.resolve 0 opts.initialSize = some l0 ∧
        p.stack = l0.reverse) := by
  constructor
  · intro p q h
    unfold reset at h
    split at h
    · obtain ⟨l, g1, g2, g3, -, -, -, -, -, -, -, -⟩ :=
        prepop_ok_inv p.initialSize _ q h
      have hlen : l.length = p.initialSize :=
        genSeq_length p.create p.initialSize p.calls l g1
      refine ⟨l, g1, ?_, ?_, g3, ?_⟩
      · rw [g2]; simp
      · show q.stack.length = p.initialSize
        rw [g2]
        simp [hlen]
      · intro e he
        rw [g2] at he
        simpa using he
    · rename_i hsz
      simp only [ne_eq, not_not] at hsz
      injection h with h1 h2
      refine ⟨[], ?_, ?_, ?_, ?_, ?_⟩
      · rw [hsz]; rfl
      · rw [← h1]; rfl
      · rw [← h1, hsz]; rfl
      · rw [← h1, hsz]; rfl
      · intro e he
        rw [← h1] at he
        simp at he
  · intro dev name opts p h
    obtain ⟨-, -, -, -, -, -, -, -, -, l, hg, hstack, -, -⟩ :=
      construct_ok_inv dev name opts p h
    exact ⟨l, hg, hstack⟩

/-- Witness for C6 at concrete inputs: reset on w6pool succeeds and the
constructor prepopulation of w2pool has the same reversed shape. -/
theorem c6_reset_witness :
    (∃ l, genSeq w6pool.create w6pool.calls w6pool.initialSize = some l ∧
      (reset w6pool).1.stack = l.reverse ∧
      (reset w6pool).1.size = w6pool.initialSize ∧
      (reset w6pool).1.calls = w6pool.calls + w6pool.initialSize ∧
      ∀ e ∈ (reset w6pool).1.stack, e ∈ l) ∧
    (∃ l0, genSeq w2opts.create.resolve 0 w2opts.initialSize = some l0 ∧
      w2pool.stack = l0.reverse) :=
  ⟨c6_reset.1 w6pool (reset w6pool).1 rfl,
    c6_reset.2 false "w2" w2opts w2pool rfl⟩

/-- C10: reset is not atomic with respect to factory failure.  If the first
i factory calls of the repopulation succeed and the next one throws (with i
below the configured initialSize), reset propagates the throw and leaves
the pool holding exactly those i freshly generated entries — the pre-reset
free list is already discarded and the remaining initialSize - i entries
are never manufactured. -/
theorem c10_reset_nonatomic :
    ∀ p i l, i < p.initialSize →
      genSeq p.create p.calls i = some l →
      p.create (p.calls + i) = none →
      ∃ q, reset p = (q, true) ∧ q.stack = l.reverse ∧ q.size = i ∧
        q.calls = p.calls + i + 1 := by
  intro p i l hi h1 h2
  obtain ⟨q, hq, hstack, hcalls⟩ :=
    prepop_err_forward i p.initialSize
      { p with stack := ([] : List Entry) } l hi h1 h2
  have hrs : reset p = (q, true) := by
    unfold reset
    rw [if_pos (by omega : p.initialSize ≠ 0)]
    exact hq
  refine ⟨q, hrs, ?_, ?_, hcalls⟩
  · rw [hstack]; simp
  · show q.stack.length = i
    rw [hstack]
    simp [genSeq_length p.create i p.calls l h1]

/-- Witness for C10 at concrete inputs: reset throws after generating one
entry and leaves exactly that entry on the free list. -/
theorem c10_reset_nonatomic_witness :
    ∃ q, reset w10pool = (q, true) ∧ q.stack = [70].reverse ∧
      q.size = 1 ∧ q.calls = w10pool.calls + 1 + 1 :=
  c10_reset_nonatomic w10pool 1 [70] (by decide) (by decide) (by decide)

/-- C7: the scenario of the spec on P constructed with initialSize 2.  Size
starts at 2; the first two reserves pop entries and decrement size to 1
then 0; the third reserve manufactures a new entry (one extra factory call)
and leaves size at 0; releasing one reserved entry raises size to 1; and
releasing a foreign entry (999, never registered with P) throws the
OwnershipError — release throws before performing any mutation, so P's
state, in particular its size, is unchanged. -/
theorem c7_scenario :
    construct false "P" c7opts = .ok c7p0 ∧
      c7p0.size = 2 ∧
      (reserve c7p0).1 = some 101 ∧ c7p1.size = 1 ∧
      (reserve c7p1).1 = some 100 ∧ c7p2.size = 0 ∧
      (reserve c7p2).1 = some 102 ∧ c7p3.size = 0 ∧
      c7p3.calls = c7p2.calls + 1 ∧
      release c7p3 101 = .ok c7p4 ∧ c7p4.size = 1 ∧
      release c7p4 999 = .error () ∧ c7p4.size = 1 :=
  ⟨rfl, rfl, rfl, rfl, rfl, rfl, rfl, rfl, rfl, rfl, rfl, rfl, rfl⟩

/-- Counterexample for C8 as stated: onRelease is provided and not callable
(a falsy value such as 0), the build mode is development/strict, and yet
construction succeeds — the claimed ConfigurationError is not thrown,
because the strict-mode validation sits under a truthiness guard. -/
theorem c8_counterexample :
    (construct true "c8" c8optsFalsy).toOption.isSome = true ∧
      ((construct true "c8" c8optsFalsy).toOption.getD emptyPool).hasOnRelease
        = false :=
  ⟨rfl, rfl⟩

/-- C8 (amended): for options whose onRelease (or onReserve) is provided,
truthy, and not callable, construction throws a ConfigurationError in
development/strict mode, while in relaxed/production mode the invalid hook
is silently ignored — not stored on the pool, and a pool without a stored
hook never invokes it (its hook log never grows); the non-callable-create
check, by contrast, throws in every mode. -/
theorem c8_hook_validation :
    (∀ dev name opts, opts.create = CreateOpt.nonFn →
      construct dev name opts =
        .error (.config "create must be a function")) ∧
    (∀ name opts, opts.create.nonCallable = false →
      opts.onRelease = HookOpt.truthyNonCallable →
      construct true name opts =
        .error (.config "onRelease must be a function")) ∧
    (∀ name opts, opts.create.nonCallable = false →
      hookThrows true opts.onRelease = false →
      opts.onReserve = HookOpt.truthyNonCallable →
      construct true name opts =
        .error (.config "onReserve must be a function")) ∧
    (∀ name opts p, opts.onRelease = HookOpt.truthyNonCallable →
      construct false name opts = .ok p → p.hasOnRelease = false) ∧
    (∀ name opts p, opts.onReserve = HookOpt.truthyNonCallable →
      construct false name opts = .ok p → p.hasOnReserve = false) ∧
    (∀ p e q, p.hasOnRelease = false → release p e = .ok q →
      q.log = p.log) ∧
    (∀ p, p.hasOnReserve = false → (reserve p).2.log = p.log) := by
  refine ⟨?_, ?_, ?_, ?_, ?_, ?_, ?_⟩
  · intro dev name opts hcr
    unfold construct
    rw [if_pos (by rw [hcr]; rfl)]
  · intro name opts hcr hrel
    unfold construct
    rw [if_neg (by rw [hcr]; simp), if_pos (by rw [hrel]; rfl)]
  · intro name opts hcr hrel hres
    unfold construct
    rw [if_neg (by rw [hcr]; simp), if_neg (by rw [hrel]; simp),
      if_pos (by rw [hres]; rfl)]
  · intro name opts p hrel h
    obtain ⟨-, -, -, -, -, -, hstored, -, -, -⟩ :=
      construct_ok_inv false name opts p h
    rw [hstored, hrel]
    rfl
  · intro name opts p hres h
    obtain ⟨-, -, -, -, -, -, -, hstored, -, -⟩ :=
      construct_ok_inv false name opts p h
    rw [hstored, hres]
    rfl
  · intro p e q hno h
    obtain ⟨-, hcase⟩ := release_ok_inv p e q h
    rcases hcase with ⟨-, heq⟩ | ⟨-, -, -, -, -, -, -, -, -, hlog⟩
    · rw [heq]
    · rw [hlog, hno]
      simp
  · intro p hno
    cases hs : p.stack with
    | cons e rest =>
        simp only [reserve, hs]
        split
        · rename_i hres
          have hres2 : p.hasOnReserve = true := hres
          rw [hno] at hres2
          exact absurd hres2 (by simp)
        · rfl
    | nil =>
        simp only [reserve, hs]
        cases hc : p.create p.calls with
        | none => simp only [generate_eq_none p hc]
        | some e =>
            simp only [generate_eq_some p e hc]
            split
            · rename_i hres
              have hres2 : p.hasOnReserve = true := hres
              rw [hno] at hres2
              exact absurd hres2 (by simp)
            · rfl

/-- Witness for the amended C8 at concrete inputs. -/
theorem c8_hook_validation_witness :
    construct false "x" c8optsCreate =
        .error (.config "create must be a function") ∧
      construct true "x" c8optsRel =
        .error (.config "onRelease must be a function") ∧
      construct true "x" c8optsRes =
        .error (.config "onReserve must be a function") ∧
      ((construct false "x" c8optsRel).toOption.getD emptyPool).hasOnRelease
        = false ∧
      ((construct false "x" c8optsRes).toOption.getD emptyPool).hasOnReserve
        = false ∧
      ((release c8pool 1).toOption.getD emptyPool).log = c8pool.log ∧
      (reserve c8pool).2.log = c8pool.log :=
  ⟨c8_hook_validation.1 false "x" c8optsCreate rfl,
    c8_hook_validation.2.1 "x" c8optsRel rfl rfl,
    c8_hook_validation.2.2.1 "x" c8optsRes rfl rfl rfl,
    c8_hook_validation.2.2.2.1 "x" c8optsRel
      ((construct false "x" c8optsRel).toOption.getD emptyPool) rfl rfl,
    c8_hook_validation.2.2.2.2.1 "x" c8optsRes
      ((construct false "x" c8optsRes).toOption.getD emptyPool) rfl rfl,
    c8_hook_validation.2.2.2.2.2.1 c8pool 1
      ((release c8pool 1).toOption.getD emptyPool) rfl rfl,
    c8_hook_validation.2.2.2.2.2.2 c8pool rfl⟩

/-- C9: a provided but falsy non-callable hook value (0, false, the empty
string, null) never makes construction throw — even in development/strict
mode — because the strict-mode validation is guarded by truthiness; the
value is silently not stored, and construction behaves exactly as if the
hook had been omitted. -/
theorem c9_falsy_hooks :
    ∀ (dev : Bool) (name : String) (opts : Options),
      (construct dev name { opts with onRelease := HookOpt.falsyNonCallable }
        = construct dev name { opts with onRelease := HookOpt.missing }) ∧
      (construct dev name { opts with onReserve := HookOpt.falsyNonCallable }
        = construct dev name { opts with onReserve := HookOpt.missing }) ∧
      (∀ p, construct dev name
          { opts with onRelease := HookOpt.falsyNonCallable } = .ok p →
        p.hasOnRelease = false) ∧
      (∀ p, construct dev name
          { opts with onReserve := HookOpt.falsyNonCallable } = .ok p →
        p.hasOnReserve = false) := by
  intro dev name opts
  refine ⟨?_, ?_, ?_, ?_⟩
  · unfold construct
    simp [basePool, hookThrows, hookStored, HookOpt.isTruthy]
  · unfold construct
    simp [basePool, hookThrows, hookStored, HookOpt.isTruthy]
  · intro p h
    obtain ⟨-, -, -, -, -, -, hstored, -, -, -⟩ :=
      construct_ok_inv dev name _ p h
    rw [hstored]
    rfl
  · intro p h
    obtain ⟨-, -, -, -, -, -, -, hstored, -, -⟩ :=
      construct_ok_inv dev name _ p h
    rw [hstored]
    rfl

/-- Witness for C9 at concrete inputs: in development mode with onRelease
provided as a falsy non-callable, construction equals the omitted-hook
construction and stores no hook. -/
theorem c9_falsy_hooks_witness :
    (construct true "w9"
        { c8optsFalsy with onRelease := HookOpt.falsyNonCallable }
      = construct true "w9"
        { c8optsFalsy with onRelease := HookOpt.missing }) ∧
      ((construct true "w9"
          { c8optsFalsy with onRelease := HookOpt.falsyNonCallable }).toOption.getD
        emptyPool).hasOnRelease = false :=
  ⟨(c9_falsy_hooks true "w9" c8optsFalsy).1,
    (c9_falsy_hooks true "w9" c8optsFalsy).2.2.1
      ((construct true "w9"
          { c8optsFalsy with onRelease := HookOpt.falsyNonCallable }).toOption.getD
        emptyPool) rfl⟩

